import Mathlib

set_option maxRecDepth 4000

/-!
Shallow embedding of the SuperAgent repository core:
src/response_parser.py (the streaming call parser) and
src/context_manager/context_manager.py (the conversation store).
Strings are modelled as lists of characters so that the suffix checks and
Python slices of the source translate directly.
-/

/-- Content block produced by parse_ai_response, mirroring ContentType and the
dict shapes built by the source: a text chunk, or a tool call with its params
dict. The complete flag records which code path emitted the call: the in-loop
emission after the closing action delimiter (line 51, complete) or the
end-of-input emission (line 72, commented Incomplete tool call). -/
inductive Segment where
  | text (content : List Char)
  | toolCall (tool : List Char) (params : List (List Char × List Char)) (complete : Bool)
deriving DecidableEq, Repr

/-- Vocabulary entry: a tool name together with its declared required and
optional parameter names, as exposed by TOOLS_DICT entries. -/
structure ToolDecl where
  name : List Char
  required : List (List Char)
  optional : List (List Char)
deriving DecidableEq, Repr

/-- Opening delimiter of a name, the Python f-string "<name>". -/
def startTagOf (n : List Char) : List Char := '<' :: (n ++ ['>'])

/-- Closing delimiter of a name, the Python f-string "</name>". -/
def closeTagOf (n : List Char) : List Char := '<' :: '/' :: (n ++ ['>'])

/-- Python index normalisation for slicing: a negative index counts from the
end, and the result is clamped into the valid range. -/
def pyIdx (len : Nat) (i : Int) : Nat :=
  if i < 0 then ((len : Int) + i).toNat else min i.toNat len

/-- Python slice l[i:j]. -/
def pySlice (l : List Char) (i j : Int) : List Char :=
  (l.take (pyIdx l.length j)).drop (pyIdx l.length i)

/-- Python dict assignment d[k] = v on an insertion ordered dict with string
keys: replace the value in place when the key exists, append otherwise. -/
def dictSetP : List (List Char × List Char) → List Char → List Char → List (List Char × List Char)
  | [], k, v => [(k, v)]
  | kv :: t, k, v => if kv.1 = k then (k, v) :: t else kv :: dictSetP t k v

/-- The mutable locals of the scanning loop of parse_ai_response, plus two
instrumentation fields (spans, pending_span) recording, for each emitted
content block, the literal span of the input it was derived from; they do not
influence the computation of the blocks themselves. -/
structure ParseState where
  accumulator : List Char
  current_tool : Option (List Char)
  current_tool_params : List (List Char)
  param_start_index : Int
  current_param : Option (List Char)
  all_params : List (List Char × List Char)
  content_blocks : List Segment
  spans : List (List Char)
  pending_span : List Char
deriving DecidableEq, Repr

/-- Initial state of the locals at line 12 to 19 of the source. -/
def initParseState : ParseState :=
  { accumulator := []
    current_tool := none
    current_tool_params := []
    param_start_index := -1
    current_param := none
    all_params := []
    content_blocks := []
    spans := []
    pending_span := [] }

/-- Scan for an opening delimiter of one of the declared params of the open
tool (lines 44 to 48 of the source); on the first suffix match, record the
current buffer length as the start offset and open that param. -/
def paramOpenScan (st : ParseState) (acc : List Char) : ParseState :=
  match st.current_tool_params.find? (fun p => (startTagOf p).isSuffixOf acc) with
  | some p => { st with param_start_index := (acc.length : Int), current_param := some p }
  | none => st

/-- The param close or open phase of the loop body (lines 37 to 48 of the
source): when a param is open and the buffer ends with its closing delimiter,
slice its value out of the buffer and finalise it; otherwise scan for a param
opening delimiter. Only the three param locals are touched. -/
def paramPhase (st : ParseState) (acc : List Char) : ParseState :=
  match st.current_param with
  | some p =>
    if (closeTagOf p).isSuffixOf acc then
      { st with
        all_params := dictSetP st.all_params p
          (pySlice acc st.param_start_index (-(((closeTagOf p).length : Nat) : Int)))
        param_start_index := -1
        current_param := none }
    else paramOpenScan st acc
  | none => paramOpenScan st acc

/-- One iteration of the character loop of parse_ai_response
(lines 21 to 63 of the source). -/
def parseStep (tools : List ToolDecl) (st : ParseState) (c : Char) : ParseState :=
  let acc := st.accumulator ++ [c]
  let pend := st.pending_span ++ [c]
  match st.current_tool with
  | none =>
    match tools.find? (fun td => (startTagOf td.name).isSuffixOf acc) with
    | some td =>
      if (startTagOf td.name).length < acc.length then
        { st with
          accumulator := []
          current_tool := some td.name
          current_tool_params := td.required ++ td.optional
          content_blocks := st.content_blocks ++
            [Segment.text (acc.take (acc.length - (startTagOf td.name).length))]
          spans := st.spans ++ [pend.take (pend.length - (startTagOf td.name).length)]
          pending_span := pend.drop (pend.length - (startTagOf td.name).length) }
      else
        { st with
          accumulator := acc
          pending_span := pend
          current_tool := some td.name
          current_tool_params := td.required ++ td.optional }
    | none => { st with accumulator := acc, pending_span := pend }
  | some t =>
    let st1 := paramPhase st acc
    if (closeTagOf t).isSuffixOf acc then
      { st1 with
        accumulator := []
        current_tool := none
        current_tool_params := []
        param_start_index := -1
        current_param := none
        all_params := []
        content_blocks := st1.content_blocks ++ [Segment.toolCall t st1.all_params true]
        spans := st1.spans ++ [pend]
        pending_span := [] }
    else { st1 with accumulator := acc, pending_span := pend }

/-- End-of-input handling of parse_ai_response (lines 65 to 81). -/
def finalizeBlocks (st : ParseState) : List Segment :=
  if 0 < st.accumulator.length then
    match st.current_tool with
    | some t =>
      match st.current_param with
      | some p =>
        [Segment.toolCall t
          (dictSetP st.all_params p
            (pySlice st.accumulator st.param_start_index (st.accumulator.length : Int))) false]
      | none => [Segment.toolCall t st.all_params false]
    | none => [Segment.text st.accumulator]
  else []

/-- Span of the end-of-input block, when one is emitted. -/
def finalSpans (st : ParseState) : List (List Char) :=
  if 0 < st.accumulator.length then [st.pending_span] else []

/-- Folds the character loop over the whole response. -/
def runParser (tools : List ToolDecl) (input : List Char) : ParseState :=
  input.foldl (parseStep tools) initParseState

/-- The full parse_ai_response function: loop followed by end-of-input
handling, returning the list of content blocks. -/
def parse_ai_response (tools : List ToolDecl) (input : List Char) : List Segment :=
  (runParser tools input).content_blocks ++ finalizeBlocks (runParser tools input)

/-- The literal input spans the emitted blocks were derived from, in order. -/
def parseSpans (tools : List ToolDecl) (input : List Char) : List (List Char) :=
  (runParser tools input).spans ++ finalSpans (runParser tools input)

/-- Guard expressing that the slice taken when a param closes (line 39 of the
source) uses a valid previously recorded start offset. -/
def sliceGuard (st : ParseState) (c : Char) : Bool :=
  match st.current_tool with
  | none => true
  | some _ =>
    match st.current_param with
    | none => true
    | some p =>
      if (closeTagOf p).isSuffixOf (st.accumulator ++ [c]) then
        decide (0 ≤ st.param_start_index) &&
          decide (st.param_start_index ≤ ((st.accumulator ++ [c]).length : Int))
      else true

/-- Guard expressing that the slice taken at end of input (line 69 of the
source) uses a valid previously recorded start offset. -/
def finalGuard (st : ParseState) : Bool :=
  match st.current_tool with
  | none => true
  | some _ =>
    match st.current_param with
    | none => true
    | some _ =>
      if 0 < st.accumulator.length then
        decide (0 ≤ st.param_start_index) &&
          decide (st.param_start_index ≤ (st.accumulator.length : Int))
      else true

/-- Error aware variant of the loop body: fails instead of slicing the buffer
with an out-of-range or unrecorded start offset. -/
def parseStepChecked (tools : List ToolDecl) (st : ParseState) (c : Char) : Option ParseState :=
  if sliceGuard st c then some (parseStep tools st c) else none

/-- Error aware variant of parse_ai_response: returns none if any buffer slice
would use an invalid start offset, and the block list otherwise. -/
def parse_ai_response_checked (tools : List ToolDecl) (input : List Char) :
    Option (List Segment) :=
  (input.foldlM (parseStepChecked tools) initParseState).bind
    (fun st => if finalGuard st then some (st.content_blocks ++ finalizeBlocks st) else none)

/-!
Conversation store: src/context_manager/context_manager.py.
Message ids (msg_ + 8 hex chars of a fresh uuid in the source) are modelled by
a monotone counter, which preserves exactly the property the source relies on:
each id is fresh for the process lifetime. Contents are Lean strings. The
three llm judgments (_compress_content, _is_tool_execution_successful,
_is_goal_achieved) are modelled as an explicit oracle parameter. The two token
counters are observability only (word counts, never read by control flow) and
are not modelled.
-/

/-- Message type tags used by add_message. -/
inductive MsgType where
  | system
  | user
  | ai
  | tool
deriving DecidableEq, Repr

/-- A tool call as stored in message metadata and consumed by _tool_string:
a tool name and an args dict. -/
structure MToolCall where
  tool_name : String
  args : List (String × String)
deriving DecidableEq, Repr

/-- A stored message: the dict built at lines 100 to 106 of the source, with
the three metadata entries flattened into optional fields. -/
structure Message where
  id : Nat
  type : MsgType
  original_content : String
  compressed_content : String
  tool_call : Option MToolCall := none
  tool_successful : Option Bool := none
  is_response_to : Option Nat := none
deriving DecidableEq, Repr

/-- Input to add_message: the message dict handed in by the caller. -/
structure InMsg where
  type : MsgType
  content : String
  tool_calls : List MToolCall := []
deriving DecidableEq, Repr

/-- The three llm backed judgment operations the store delegates. -/
structure Judge where
  compress : String → String
  toolSuccess : String → String → Bool
  goalAchieved : String → Bool

/-- The mutable state of a ContextManager instance. -/
structure ContextManager where
  compress_on_add : Bool
  context_history : List (Nat × Message)
  pending_failed_tool_calls : List (Nat × Nat)
  last_message_id : Option Nat
  next_id : Nat
deriving DecidableEq, Repr

/-- Fresh ContextManager, as built by __init__. -/
def initCM (compress_on_add : Bool) : ContextManager :=
  { compress_on_add := compress_on_add
    context_history := []
    pending_failed_tool_calls := []
    last_message_id := none
    next_id := 0 }

/-- Python dict lookup self.context_history[k] on the insertion ordered
history, returning none when the key is absent. -/
def hist_lookup (k : Nat) : List (Nat × Message) → Option Message
  | [] => none
  | kv :: t => if kv.1 = k then some kv.2 else hist_lookup k t

/-- Python dict assignment self.context_history[k] = v: replace in place when
the key exists, append otherwise. -/
def hist_set : List (Nat × Message) → Nat → Message → List (Nat × Message)
  | [], k, v => [(k, v)]
  | kv :: t, k, v => if kv.1 = k then (k, v) :: t else kv :: hist_set t k v

/-- Python guarded deletion: if k in self.context_history, del it. -/
def hist_del : List (Nat × Message) → Nat → List (Nat × Message)
  | [], _ => []
  | kv :: t, k => if kv.1 = k then t else kv :: hist_del t k

/-- The deletion loop at lines 163 to 165 of the source. -/
def hist_del_all (h : List (Nat × Message)) (ids : List Nat) : List (Nat × Message) :=
  ids.foldl hist_del h

/-- The to_delete_ids list built at lines 156 to 160 of the source: every id
of every ledger entry except the assistant id of the very first entry. -/
def toDeleteIds : List (Nat × Nat) → List Nat
  | [] => []
  | p :: rest => p.2 :: rest.flatMap (fun q => [q.1, q.2])

/-- The _tool_string formatter (lines 179 to 183 of the source). -/
def tool_string (tc : MToolCall) : String :=
  let args := String.intercalate "\n"
    (tc.args.map (fun kv => "<" ++ kv.1 ++ ">" ++ kv.2 ++ "</" ++ kv.1 ++ ">"))
  "<" ++ tc.tool_name ++ ">" ++ "\n" ++ args ++ "\n" ++ "</" ++ tc.tool_name ++ ">"

/-- One iteration of the transcript building loop at lines 135 to 143. -/
def ledger_entry_string (hist : List (Nat × Message)) (p : Nat × Nat) : String :=
  (match hist_lookup p.1 hist with
   | some m =>
     "AI:\n" ++ m.compressed_content ++ "\n" ++
       (match m.tool_call with
        | some tc => "\n" ++ tool_string tc ++ "\n"
        | none => "")
   | none => "") ++
  (match hist_lookup p.2 hist with
   | some m => "Tool Response:\n" ++ m.original_content ++ "\n"
   | none => "")

/-- The full conversation transcript submitted to the goal achieved judgment
(lines 134 to 151 of the source): every ledger entry, then the current
assistant and result pair. -/
def buildConversation (hist : List (Nat × Message)) (ledger : List (Nat × Nat))
    (la : Message) (content : String) : String :=
  String.join (ledger.map (ledger_entry_string hist)) ++
  "AI:\n" ++ la.compressed_content ++ "\n" ++
  (match la.tool_call with
   | some tc => "\n" ++ tool_string tc ++ "\n"
   | none => "") ++
  "Tool Response:\n" ++ content ++ "\n"

/-- In place mutation of line 126: record the success classification on the
preceding assistant message. -/
def markSuccess (m : Message) (b : Bool) : Message := { m with tool_successful := some b }

/-- The _compress_content helper (lines 73 to 80 of the source). -/
def compress_content (judge : Judge) (cm : ContextManager) (content : String) : String :=
  if !cm.compress_on_add || content.trim == "" then content else judge.compress content

/-- Common tail of add_message (lines 172 to 177): store the new message,
update the last message pointer, allocate the next id. -/
def storeNew (cm : ContextManager) (m : Message) : ContextManager :=
  { cm with
    context_history := hist_set cm.context_history cm.next_id m
    last_message_id := some cm.next_id
    next_id := cm.next_id + 1 }

/-- The add_message operation (lines 94 to 177 of the source). A Python
KeyError (an unguarded dict access that misses) is modelled as an error
result; on an error path the state is unchanged, matching the fact that the
exception is raised before any mutation. -/
def add_message (judge : Judge) (cm : ContextManager) (message : InMsg) :
    Except String ContextManager :=
  let new_message : Message :=
    { id := cm.next_id
      type := message.type
      original_content := message.content
      compressed_content := message.content }
  match message.type with
  | MsgType.system => Except.ok (storeNew cm new_message)
  | MsgType.user => Except.ok (storeNew cm new_message)
  | MsgType.ai =>
    Except.ok (storeNew cm
      { new_message with
        compressed_content := compress_content judge cm message.content
        tool_call := message.tool_calls.head? })
  | MsgType.tool =>
    match cm.last_message_id with
    | none => Except.ok (storeNew cm new_message)
    | some lid =>
      match hist_lookup lid cm.context_history with
      | none => Except.error "KeyError: last message id not in context history"
      | some lm =>
        if lm.type ≠ MsgType.ai then Except.ok (storeNew cm new_message)
        else
          match lm.tool_call with
          | none => Except.error "KeyError: tool_call"
          | some tc =>
            let is_successful := judge.toolSuccess (tool_string tc) message.content
            let lm1 := markSuccess lm is_successful
            let hist1 := hist_set cm.context_history lid lm1
            let nm := { new_message with is_response_to := some lid }
            if !is_successful then
              Except.ok (storeNew
                { cm with
                  context_history := hist1
                  pending_failed_tool_calls :=
                    cm.pending_failed_tool_calls ++ [(lid, cm.next_id)] } nm)
            else if cm.pending_failed_tool_calls ≠ [] then
              if judge.goalAchieved
                  (buildConversation hist1 cm.pending_failed_tool_calls lm1 message.content) then
                Except.ok (storeNew
                  { cm with
                    context_history :=
                      hist_del_all hist1 (toDeleteIds cm.pending_failed_tool_calls)
                    pending_failed_tool_calls := [] } nm)
              else
                Except.ok (storeNew
                  { cm with
                    context_history := hist1
                    pending_failed_tool_calls :=
                      cm.pending_failed_tool_calls ++ [(lid, cm.next_id)] } nm)
            else
              Except.ok (storeNew { cm with context_history := hist1 } nm)

/-- Sequential application of add_message, propagating a raised error. -/
def runMsgs (judge : Judge) (cm : ContextManager) : List InMsg → Except String ContextManager
  | [] => Except.ok cm
  | m :: rest =>
    match add_message judge cm m with
    | Except.ok cm1 => runMsgs judge cm1 rest
    | Except.error e => Except.error e

/-- The params dict the end-of-input handler attaches to a truncated tool
call (lines 68 to 70 of the source): the finalised params, plus the partial
value of the still open param when there is one. -/
def finalParams (st : ParseState) : List (List Char × List Char) :=
  match st.current_param with
  | some p =>
    dictSetP st.all_params p
      (pySlice st.accumulator st.param_start_index (st.accumulator.length : Int))
  | none => st.all_params

/-- Demo vocabulary: tool t with declared params a and b. -/
def demoVT : List ToolDecl :=
  [{ name := "t".toList, required := ["a".toList, "b".toList], optional := [] }]

/-- Demo vocabulary: tool named tool with declared param x. -/
def demoVtool : List ToolDecl :=
  [{ name := "tool".toList, required := ["x".toList], optional := [] }]

/-- Demo vocabulary: tool outer with declared param p1. -/
def demoVouter : List ToolDecl :=
  [{ name := "outer".toList, required := ["p1".toList], optional := [] }]

/-- Demo parser state: inside tool t, inside its open param a, with the
buffer holding the text scanned so far. -/
def demoStC3 : ParseState :=
  { accumulator := "<t><a>x<b".toList
    current_tool := some "t".toList
    current_tool_params := ["a".toList, "b".toList]
    param_start_index := 6
    current_param := some "a".toList
    all_params := []
    content_blocks := []
    spans := []
    pending_span := "<t><a>x<b".toList }

/-- Verbatim stored message with no linkage: the dict of lines 100 to 106
as stored when no processing applies. -/
def plainMsg (cm : ContextManager) (msg : InMsg) : Message :=
  { id := cm.next_id
    type := msg.type
    original_content := msg.content
    compressed_content := msg.content }

/-- Reachability invariant of a ContextManager: history keys are bounded by
the id counter and distinct; every Pending Failure Ledger entry references a
present assistant message and a present action result message with bounded
ids; ledger assistant ids are distinct; and the last message pointer, when it
points at an assistant message, is not referenced by the ledger. -/
def cmInv (cm : ContextManager) : Prop :=
  (∀ kv ∈ cm.context_history, kv.1 < cm.next_id) ∧
  (cm.context_history.map Prod.fst).Nodup ∧
  (∀ p ∈ cm.pending_failed_tool_calls,
    p.1 < cm.next_id ∧ p.2 < cm.next_id ∧
    (hist_lookup p.1 cm.context_history).map Message.type = some MsgType.ai ∧
    (hist_lookup p.2 cm.context_history).map Message.type = some MsgType.tool) ∧
  (cm.pending_failed_tool_calls.map Prod.fst).Nodup ∧
  (∀ l ∈ cm.last_message_id.toList,
    l < cm.next_id ∧
    ((hist_lookup l cm.context_history).map Message.type = some MsgType.ai →
      ∀ p ∈ cm.pending_failed_tool_calls, p.1 ≠ l ∧ p.2 ≠ l))

instance (cm : ContextManager) : Decidable (cmInv cm) := by
  unfold cmInv
  infer_instance

/-- History keys with their message types of an add_message result, the
empty list on a raised error. -/
def exceptHistTypes (e : Except String ContextManager) : List (Nat × MsgType) :=
  match e with
  | Except.ok c => c.context_history.map (fun kv => (kv.1, kv.2.type))
  | Except.error _ => []

/-- Lookup into the history of an add_message result. -/
def exceptLookup (e : Except String ContextManager) (k : Nat) : Option Message :=
  match e with
  | Except.ok c => hist_lookup k c.context_history
  | Except.error _ => none

/-- True when an add_message run raised an error. -/
def exceptIsError (e : Except String ContextManager) : Bool :=
  match e with
  | Except.ok _ => false
  | Except.error _ => true

/-- Demo tool call for the conversation store scenarios. -/
def demoTc : MToolCall := { tool_name := "shell", args := [("command", "ls")] }

/-- Demo judge for the pruning scenario: summaries are identities, a result
is successful exactly when it reads done, and the goal achieved judgment
always answers yes. -/
def demoJudgeYes : Judge :=
  { compress := fun s => s
    toolSuccess := fun _ r => r == "done"
    goalAchieved := fun _ => true }

/-- Demo judge answering no to every goal achieved question. -/
def demoJudgeNo : Judge :=
  { compress := fun s => s
    toolSuccess := fun _ r => r == "done"
    goalAchieved := fun _ => false }

/-- The claim C5 append sequence: assistant, failed result, assistant,
failed result, assistant, successful result. -/
def demoMsgs5 : List InMsg :=
  [{ type := MsgType.ai, content := "try A", tool_calls := [demoTc] },
   { type := MsgType.tool, content := "err1" },
   { type := MsgType.ai, content := "retry B", tool_calls := [demoTc] },
   { type := MsgType.tool, content := "err2" },
   { type := MsgType.ai, content := "final C", tool_calls := [demoTc] },
   { type := MsgType.tool, content := "done" }]

/-- Demo stored assistant message for the first attempt. -/
def demoAi0 : Message :=
  { id := 0, type := MsgType.ai, original_content := "try A"
    compressed_content := "try A", tool_call := some demoTc
    tool_successful := some false }

/-- Demo stored failed result message. -/
def demoTool1 : Message :=
  { id := 1, type := MsgType.tool, original_content := "err1"
    compressed_content := "err1", is_response_to := some 0 }

/-- Demo stored assistant message for the retry. -/
def demoAi2 : Message :=
  { id := 2, type := MsgType.ai, original_content := "retry B"
    compressed_content := "retry B", tool_call := some demoTc }

/-- Demo conversation store state reached after assistant, failed result,
assistant: one pending failure and the last message an assistant carrying a
tool call. -/
def demoCM4 : ContextManager :=
  { compress_on_add := true
    context_history := [(0, demoAi0), (1, demoTool1), (2, demoAi2)]
    pending_failed_tool_calls := [(0, 1)]
    last_message_id := some 2
    next_id := 3 }

/-- Demo successful action result message. -/
def demoToolMsg : InMsg := { type := MsgType.tool, content := "done" }

/-- Demo stored successful result message responding to the retry. -/
def demoTool3 : Message :=
  { id := 3, type := MsgType.tool, original_content := "done"
    compressed_content := "done", is_response_to := some 2 }

/-- State after the goal achieved judgment answers yes on demoCM4: the
failed result and nothing else referenced by the ledger survives except the
first assistant turn. -/
def demoCM4b : ContextManager :=
  { compress_on_add := true
    context_history := [(0, demoAi0), (2, markSuccess demoAi2 true), (3, demoTool3)]
    pending_failed_tool_calls := []
    last_message_id := some 3
    next_id := 4 }

/-- State after the goal achieved judgment answers no on demoCM4: nothing is
deleted and the ledger keeps accumulating. -/
def demoCM6b : ContextManager :=
  { compress_on_add := true
    context_history :=
      [(0, demoAi0), (1, demoTool1), (2, markSuccess demoAi2 true), (3, demoTool3)]
    pending_failed_tool_calls := [(0, 1), (2, 3)]
    last_message_id := some 3
    next_id := 4 }

/-- Demo stored user message. -/
def demoUserMessage : Message :=
  { id := 0, type := MsgType.user, original_content := "hi"
    compressed_content := "hi" }

/-- Demo conversation store state holding one user message. -/
def demoCM10 : ContextManager :=
  { compress_on_add := true
    context_history := [(0, demoUserMessage)]
    pending_failed_tool_calls := []
    last_message_id := some 0
    next_id := 1 }

/-- Demo follow-up user append. -/
def demoMsgs10 : List InMsg := [{ type := MsgType.user, content := "more" }]

/-- State after appending demoMsgs10 to demoCM10. -/
def demoCM10b : ContextManager :=
  { compress_on_add := true
    context_history :=
      [(0, demoUserMessage),
       (1, { id := 1, type := MsgType.user, original_content := "more"
             compressed_content := "more" })]
    pending_failed_tool_calls := []
    last_message_id := some 1
    next_id := 2 }

/-- The claim C7 crash scenario: an assistant message without any tool call,
immediately followed by an action result. -/
def demoMsgs7 : List InMsg :=
  [{ type := MsgType.ai, content := "hello" },
   { type := MsgType.tool, content := "resp" }]

/-!
Parser lemmas: the param phase only touches the three param locals, and the
instrumented spans always partition the consumed input.
-/

theorem paramPhase_current_tool (st : ParseState) (acc : List Char) :
    (paramPhase st acc).current_tool = st.current_tool := by
  unfold paramPhase paramOpenScan
  (repeat' split) <;> rfl

theorem paramPhase_spans (st : ParseState) (acc : List Char) :
    (paramPhase st acc).spans = st.spans := by
  unfold paramPhase paramOpenScan
  (repeat' split) <;> rfl

theorem paramPhase_pending_span (st : ParseState) (acc : List Char) :
    (paramPhase st acc).pending_span = st.pending_span := by
  unfold paramPhase paramOpenScan
  (repeat' split) <;> rfl

theorem paramPhase_content_blocks (st : ParseState) (acc : List Char) :
    (paramPhase st acc).content_blocks = st.content_blocks := by
  unfold paramPhase paramOpenScan
  (repeat' split) <;> rfl

theorem paramPhase_accumulator (st : ParseState) (acc : List Char) :
    (paramPhase st acc).accumulator = st.accumulator := by
  unfold paramPhase paramOpenScan
  (repeat' split) <;> rfl

theorem span_step (tools : List ToolDecl) (st : ParseState) (c : Char) :
    (parseStep tools st c).spans.flatten ++ (parseStep tools st c).pending_span =
      st.spans.flatten ++ st.pending_span ++ [c] := by
  unfold parseStep
  cases hct : st.current_tool with
  | none =>
    dsimp only
    cases hf : tools.find? (fun td => (startTagOf td.name).isSuffixOf (st.accumulator ++ [c])) with
    | none => simp
    | some td =>
      dsimp only
      split
      · simp [List.flatten_append, List.append_assoc, List.take_append_drop]
      · simp
  | some t =>
    dsimp only
    by_cases hcl : (closeTagOf t).isSuffixOf (st.accumulator ++ [c]) = true
    · simp [hcl, paramPhase_spans, paramPhase_pending_span, List.flatten_append,
        List.append_assoc]
    · simp [hcl, paramPhase_spans, paramPhase_pending_span, List.append_assoc]

theorem outinv_step (tools : List ToolDecl) (st : ParseState) (c : Char)
    (h : st.current_tool = none → st.pending_span = st.accumulator) :
    (parseStep tools st c).current_tool = none →
      (parseStep tools st c).pending_span = (parseStep tools st c).accumulator := by
  unfold parseStep
  cases hct : st.current_tool with
  | none =>
    dsimp only
    cases hf : tools.find? (fun td => (startTagOf td.name).isSuffixOf (st.accumulator ++ [c])) with
    | none => intro _; simp [h hct]
    | some td =>
      dsimp only
      split
      · simp
      · simp
  | some t =>
    dsimp only
    by_cases hcl : (closeTagOf t).isSuffixOf (st.accumulator ++ [c]) = true
    · simp [hcl]
    · intro hn
      simp [hcl, paramPhase_current_tool, hct] at hn

theorem run_spans (tools : List ToolDecl) :
    ∀ (input : List Char) (st : ParseState),
      (input.foldl (parseStep tools) st).spans.flatten ++
          (input.foldl (parseStep tools) st).pending_span =
        st.spans.flatten ++ st.pending_span ++ input := by
  intro input
  induction input with
  | nil => intro st; simp
  | cons c cs ih =>
    intro st
    rw [List.foldl_cons, ih (parseStep tools st c), span_step]
    simp

theorem run_outinv (tools : List ToolDecl) :
    ∀ (input : List Char) (st : ParseState),
      (st.current_tool = none → st.pending_span = st.accumulator) →
      ((input.foldl (parseStep tools) st).current_tool = none →
        (input.foldl (parseStep tools) st).pending_span =
          (input.foldl (parseStep tools) st).accumulator) := by
  intro input
  induction input with
  | nil => intro st h; simpa using h
  | cons c cs ih =>
    intro st h
    rw [List.foldl_cons]
    exact ih (parseStep tools st c) (outinv_step tools st c h)

/-- Claim C1 (amended): for every input and vocabulary, concatenating the
literal spans the emitted segments were derived from reproduces the input,
provided the scan does not end exactly at an opening action delimiter that
had emitted preceding text (the one case where the buffer is empty while an
action is open and the opening delimiter characters are dropped). -/
theorem c1_segmentation_completeness_amended (tools : List ToolDecl) (input : List Char)
    (h : (runParser tools input).current_tool = none ∨
         (runParser tools input).accumulator ≠ []) :
    (parseSpans tools input).flatten = input := by
  have hs := run_spans tools input initParseState
  have ho := run_outinv tools input initParseState (fun _ => rfl)
  unfold parseSpans finalSpans
  unfold runParser at h ⊢
  rw [show initParseState.spans = ([] : List (List Char)) from rfl,
    show initParseState.pending_span = ([] : List Char) from rfl] at hs
  simp only [List.flatten_nil, List.nil_append, List.append_nil] at hs
  by_cases hacc : 0 < (input.foldl (parseStep tools) initParseState).accumulator.length
  · simp only [hacc, if_true, List.flatten_append, List.flatten_cons, List.flatten_nil,
      List.append_nil]
    exact hs
  · have hacc0 : (input.foldl (parseStep tools) initParseState).accumulator = [] := by
      simpa using hacc
    cases h with
    | inl htool =>
      have hpend := ho htool
      rw [hacc0] at hpend
      simp only [hacc, if_false, List.append_nil]
      rw [hpend, List.append_nil] at hs
      exact hs
    | inr hne => exact absurd hacc0 hne

/-- Claim C1 counterexample: on input A<t> the scan ends immediately after
the opening delimiter of t, the delimiter characters are dropped, and the
concatenated spans give back only A, not the whole input. -/
theorem c1_counterexample :
    (parseSpans demoVT "A<t>".toList).flatten = "A".toList ∧
      (parseSpans demoVT "A<t>".toList).flatten ≠ "A<t>".toList := by
  constructor
  · decide
  · decide

/-- Claim C1 witness: a concrete input satisfying the hypothesis, with the
spans joining back to the input. -/
theorem c1_witness :
    ((runParser demoVT "A<t><a>v</a></t>B".toList).current_tool = none ∨
      (runParser demoVT "A<t><a>v</a></t>B".toList).accumulator ≠ []) ∧
    (parseSpans demoVT "A<t><a>v</a></t>B".toList).flatten = "A<t><a>v</a></t>B".toList := by
  refine ⟨Or.inl (by decide), ?_⟩
  exact c1_segmentation_completeness_amended demoVT "A<t><a>v</a></t>B".toList
    (Or.inl (by decide))

/-- Claim C2 (amended): if the scan ends while an action is still open and
the buffer is non-empty (which fails only when the input ends exactly at the
opening delimiter of the action with preceding text emitted), the final
segment is an ActionCall for that action marked incomplete, carrying the
finalised arguments plus the partial value of a still open argument. -/
theorem c2_truncation_tolerance_amended (tools : List ToolDecl) (input : List Char)
    (t : List Char)
    (h1 : (runParser tools input).current_tool = some t)
    (h2 : (runParser tools input).accumulator ≠ []) :
    parse_ai_response tools input =
      (runParser tools input).content_blocks ++
        [Segment.toolCall t (finalParams (runParser tools input)) false] := by
  have hlen : 0 < (runParser tools input).accumulator.length := List.length_pos.mpr h2
  unfold parse_ai_response finalizeBlocks finalParams
  rw [h1]
  cases hp : (runParser tools input).current_param with
  | some p => simp [hlen]
  | none => simp [hlen]

/-- Claim C2 counterexample: on input A<t> the scan ends inside action t, yet
the parser emits no ActionCall at all, only the text segment A. -/
theorem c2_counterexample :
    (runParser demoVT "A<t>".toList).current_tool = some "t".toList ∧
      parse_ai_response demoVT "A<t>".toList = [Segment.text "A".toList] := by
  constructor
  · decide
  · decide

/-- Claim C2 witness: the concrete truncated input of the claim. -/
theorem c2_witness :
    (runParser demoVtool "<tool><x>val".toList).current_tool = some "tool".toList ∧
      (runParser demoVtool "<tool><x>val".toList).accumulator ≠ [] ∧
      parse_ai_response demoVtool "<tool><x>val".toList =
        [Segment.toolCall "tool".toList [("x".toList, "val".toList)] false] :=
  ⟨by decide, by decide,
    Eq.trans
      (c2_truncation_tolerance_amended demoVtool "<tool><x>val".toList "tool".toList
        (by decide) (by decide))
      (by decide)⟩

/-- Claim C3 (amended): while an argument of the open action is open, no
other action can be opened, but besides the closing delimiter of the open
argument the parser does recognise (i) the open action closing delimiter,
which closes the action, and (ii) opening delimiters of the action declared
arguments, which retarget the open argument; only when none of these three
delimiters matches does the character accrue as literal text. -/
theorem c3_argument_open_amended (tools : List ToolDecl) (st : ParseState) (c : Char)
    (t p : List Char) (hct : st.current_tool = some t) (hcp : st.current_param = some p) :
    ((parseStep tools st c).current_tool = some t ∨
      (parseStep tools st c).current_tool = none) ∧
    ((closeTagOf t).isSuffixOf (st.accumulator ++ [c]) = true →
      (parseStep tools st c).current_tool = none ∧
      ∃ ps, (parseStep tools st c).content_blocks =
        st.content_blocks ++ [Segment.toolCall t ps true]) ∧
    (∀ q, (closeTagOf p).isSuffixOf (st.accumulator ++ [c]) = false →
      st.current_tool_params.find?
          (fun r => (startTagOf r).isSuffixOf (st.accumulator ++ [c])) = some q →
      (closeTagOf t).isSuffixOf (st.accumulator ++ [c]) = false →
      parseStep tools st c = { st with
        accumulator := st.accumulator ++ [c]
        pending_span := st.pending_span ++ [c]
        param_start_index := ((st.accumulator ++ [c]).length : Int)
        current_param := some q }) ∧
    ((closeTagOf p).isSuffixOf (st.accumulator ++ [c]) = false →
      st.current_tool_params.find?
          (fun r => (startTagOf r).isSuffixOf (st.accumulator ++ [c])) = none →
      (closeTagOf t).isSuffixOf (st.accumulator ++ [c]) = false →
      parseStep tools st c = { st with
        accumulator := st.accumulator ++ [c]
        pending_span := st.pending_span ++ [c] }) := by
  refine ⟨?_, ?_, ?_, ?_⟩
  · unfold parseStep
    rw [hct]
    dsimp only
    by_cases hcl : (closeTagOf t).isSuffixOf (st.accumulator ++ [c]) = true
    · right; simp [hcl]
    · left; simp [hcl, paramPhase_current_tool, hct]
  · intro hcl
    unfold parseStep
    rw [hct]
    dsimp only
    refine ⟨by simp [hcl], (paramPhase st (st.accumulator ++ [c])).all_params, ?_⟩
    simp [hcl, paramPhase_content_blocks]
  · intro q h1 h2 h3
    unfold parseStep paramPhase paramOpenScan
    rw [hct, hcp]
    dsimp only
    rw [h2]
    simp [h1, h3]
  · intro h1 h2 h3
    unfold parseStep paramPhase paramOpenScan
    rw [hct, hcp]
    dsimp only
    rw [h2]
    simp [h1, h3, hct, hcp]

/-- Claim C3 counterexample: with tool t declaring arguments a and b, on
input <t><a>x<b>y</b></a></t> the opening delimiter of b inside the open
argument a does trigger a transition: the emitted call carries b with value
y, and a with the claimed literal value x<b>y</b> is absent. -/
theorem c3_counterexample :
    parse_ai_response demoVT "<t><a>x<b>y</b></a></t>".toList =
        [Segment.toolCall "t".toList [("b".toList, "y".toList)] true] ∧
      parse_ai_response demoVT "<t><a>x<b>y</b></a></t>".toList ≠
        [Segment.toolCall "t".toList [("a".toList, "x<b>y</b>".toList)] true] := by
  constructor
  · decide
  · decide

/-- Claim C3 witness: a concrete mid-parse state inside tool t with open
argument a, to which the amended theorem applies. -/
theorem c3_witness :
    (demoStC3.current_tool = some "t".toList ∧ demoStC3.current_param = some "a".toList) ∧
    (((parseStep demoVT demoStC3 '>').current_tool = some "t".toList ∨
      (parseStep demoVT demoStC3 '>').current_tool = none) ∧
    ((closeTagOf "t".toList).isSuffixOf (demoStC3.accumulator ++ ['>']) = true →
      (parseStep demoVT demoStC3 '>').current_tool = none ∧
      ∃ ps, (parseStep demoVT demoStC3 '>').content_blocks =
        demoStC3.content_blocks ++ [Segment.toolCall "t".toList ps true]) ∧
    (∀ q, (closeTagOf "a".toList).isSuffixOf (demoStC3.accumulator ++ ['>']) = false →
      demoStC3.current_tool_params.find?
          (fun r => (startTagOf r).isSuffixOf (demoStC3.accumulator ++ ['>'])) = some q →
      (closeTagOf "t".toList).isSuffixOf (demoStC3.accumulator ++ ['>']) = false →
      parseStep demoVT demoStC3 '>' = { demoStC3 with
        accumulator := demoStC3.accumulator ++ ['>']
        pending_span := demoStC3.pending_span ++ ['>']
        param_start_index := ((demoStC3.accumulator ++ ['>']).length : Int)
        current_param := some q }) ∧
    ((closeTagOf "a".toList).isSuffixOf (demoStC3.accumulator ++ ['>']) = false →
      demoStC3.current_tool_params.find?
          (fun r => (startTagOf r).isSuffixOf (demoStC3.accumulator ++ ['>'])) = none →
      (closeTagOf "t".toList).isSuffixOf (demoStC3.accumulator ++ ['>']) = false →
      parseStep demoVT demoStC3 '>' = { demoStC3 with
        accumulator := demoStC3.accumulator ++ ['>']
        pending_span := demoStC3.pending_span ++ ['>'] })) :=
  ⟨⟨rfl, rfl⟩, c3_argument_open_amended demoVT demoStC3 '>' "t".toList "a".toList rfl rfl⟩

/-- Claim C8: embedded tag opacity on the concrete input of the claim, where
outer declares argument p1 and inner and m are neither actions nor declared
arguments: the whole inner markup is the literal value of p1. -/
theorem c8_embedded_tag_opacity :
    parse_ai_response demoVouter "<outer><p1><inner><m>v</m></inner></p1></outer>".toList =
      [Segment.toolCall "outer".toList
        [("p1".toList, "<inner><m>v</m></inner>".toList)] true] := by
  decide

/-- Invariant carried by the scanning loop: whenever a param is open, the
recorded start offset is a previously recorded buffer length, hence between
0 and the current buffer length; and no param is open while no tool is. -/
def parserInv (st : ParseState) : Prop :=
  (st.current_param ≠ none →
    0 ≤ st.param_start_index ∧ st.param_start_index ≤ (st.accumulator.length : Int)) ∧
  (st.current_tool = none → st.current_param = none)

theorem parserInv_init : parserInv initParseState :=
  ⟨fun h => absurd rfl h, fun _ => rfl⟩

theorem sliceGuard_of_inv (st : ParseState) (c : Char) (h : parserInv st) :
    sliceGuard st c = true := by
  unfold sliceGuard
  cases hct : st.current_tool with
  | none => rfl
  | some t =>
    dsimp only
    cases hcp : st.current_param with
    | none => rfl
    | some p =>
      dsimp only
      have hb := h.1 (by rw [hcp]; exact Option.some_ne_none p)
      split
      · simp only [Bool.and_eq_true, decide_eq_true_eq]
        refine ⟨hb.1, ?_⟩
        have := hb.2
        simp only [List.length_append, List.length_cons, List.length_nil]
        omega
      · rfl

theorem parserInv_paramPhase (st : ParseState) (c : Char) (h : parserInv st) :
    (paramPhase st (st.accumulator ++ [c])).current_param ≠ none →
      0 ≤ (paramPhase st (st.accumulator ++ [c])).param_start_index ∧
        (paramPhase st (st.accumulator ++ [c])).param_start_index ≤
          ((st.accumulator ++ [c]).length : Int) := by
  have hlen : ((st.accumulator.length : Int)) ≤ ((st.accumulator ++ [c]).length : Int) := by
    simp only [List.length_append, List.length_cons, List.length_nil]
    omega
  unfold paramPhase paramOpenScan
  cases hcp : st.current_param with
  | some p =>
    dsimp only
    split
    · intro hne
      exact absurd rfl hne
    · cases hf : st.current_tool_params.find?
          (fun r => (startTagOf r).isSuffixOf (st.accumulator ++ [c])) with
      | some q =>
        intro _
        exact ⟨Int.natCast_nonneg _, le_refl _⟩
      | none =>
        intro _
        have hb := h.1 (by rw [hcp]; exact Option.some_ne_none p)
        exact ⟨hb.1, le_trans hb.2 hlen⟩
  | none =>
    dsimp only
    cases hf : st.current_tool_params.find?
        (fun r => (startTagOf r).isSuffixOf (st.accumulator ++ [c])) with
    | some q =>
      intro _
      exact ⟨Int.natCast_nonneg _, le_refl _⟩
    | none =>
      intro hne
      exact absurd hcp hne

theorem parserInv_step (tools : List ToolDecl) (st : ParseState) (c : Char)
    (h : parserInv st) : parserInv (parseStep tools st c) := by
  unfold parseStep
  cases hct : st.current_tool with
  | none =>
    have hcp : st.current_param = none := h.2 hct
    dsimp only
    cases hf : tools.find? (fun td => (startTagOf td.name).isSuffixOf (st.accumulator ++ [c])) with
    | none =>
      refine ⟨fun hne => ?_, fun _ => hcp⟩
      simp only [hcp] at hne
      exact absurd rfl hne
    | some td =>
      dsimp only
      split
      · refine ⟨fun hne => ?_, fun hn => by simp at hn⟩
        simp only [hcp] at hne
        exact absurd rfl hne
      · refine ⟨fun hne => ?_, fun hn => by simp at hn⟩
        simp only [hcp] at hne
        exact absurd rfl hne
  | some t =>
    dsimp only
    split
    · exact ⟨fun hne => absurd rfl hne, fun _ => rfl⟩
    · refine ⟨?_, fun hn => ?_⟩
      · exact parserInv_paramPhase st c h
      · have hn2 : (paramPhase st (st.accumulator ++ [c])).current_tool = none := hn
        rw [paramPhase_current_tool, hct] at hn2
        exact absurd hn2 (Option.some_ne_none t)

theorem finalGuard_of_inv (st : ParseState) (h : parserInv st) :
    finalGuard st = true := by
  unfold finalGuard
  cases hct : st.current_tool with
  | none => rfl
  | some t =>
    dsimp only
    cases hcp : st.current_param with
    | none => rfl
    | some p =>
      dsimp only
      have hb := h.1 (by rw [hcp]; exact Option.some_ne_none p)
      split
      · simp [hb.1, hb.2]
      · rfl

theorem runChecked_eq (tools : List ToolDecl) :
    ∀ (input : List Char) (st : ParseState), parserInv st →
      input.foldlM (parseStepChecked tools) st =
          some (input.foldl (parseStep tools) st) ∧
        parserInv (input.foldl (parseStep tools) st) := by
  intro input
  induction input with
  | nil => intro st h; exact ⟨rfl, h⟩
  | cons c cs ih =>
    intro st h
    have hstep : parseStepChecked tools st c = some (parseStep tools st c) := by
      unfold parseStepChecked
      rw [sliceGuard_of_inv st c h]
      rfl
    have := ih (parseStep tools st c) (parserInv_step tools st c h)
    constructor
    · rw [List.foldlM_cons, hstep]
      simpa using this.1
    · rw [List.foldl_cons]
      exact this.2

/-- Claim C9: parser totality. For every vocabulary and input, the error
aware parser (which fails on any buffer slice whose start offset is not a
valid previously recorded offset) succeeds and returns exactly the segments
of parse_ai_response: the parser terminates, never raises, and every slice
uses a valid recorded start offset, malformed input degrading into plain
text or a partial action call. -/
theorem c9_parser_totality (tools : List ToolDecl) (input : List Char) :
    parse_ai_response_checked tools input = some (parse_ai_response tools input) := by
  obtain ⟨he, hi⟩ := runChecked_eq tools input initParseState parserInv_init
  unfold parse_ai_response_checked parse_ai_response runParser
  rw [he]
  simp [finalGuard_of_inv _ hi]

/-!
Conversation store lemmas: dictionary operations on the insertion ordered
history, and preservation of the reachability invariant by add_message.
-/

theorem hist_lookup_set_eq (h : List (Nat × Message)) (k : Nat) (v : Message) :
    hist_lookup k (hist_set h k v) = some v := by
  induction h with
  | nil => simp [hist_set, hist_lookup]
  | cons kv t ih =>
    by_cases hk : kv.1 = k
    · simp [hist_set, hist_lookup, hk]
    · simp [hist_set, hist_lookup, hk, ih]

theorem hist_lookup_set_ne (h : List (Nat × Message)) (k : Nat) (v : Message) (j : Nat)
    (hne : j ≠ k) : hist_lookup j (hist_set h k v) = hist_lookup j h := by
  induction h with
  | nil => simp [hist_set, hist_lookup, Ne.symm hne]
  | cons kv t ih =>
    by_cases hk : kv.1 = k
    · by_cases hj : kv.1 = j
      · exact absurd (hj.symm.trans hk) hne
      · simp [hist_set, hist_lookup, hk, hj, Ne.symm hne]
    · by_cases hj : kv.1 = j
      · simp [hist_set, hist_lookup, hk, hj, hne]
      · simp [hist_set, hist_lookup, hk, hj, ih]

theorem hist_lookup_some_mem (h : List (Nat × Message)) (k : Nat) (m : Message)
    (hl : hist_lookup k h = some m) : (k, m) ∈ h := by
  induction h with
  | nil => simp [hist_lookup] at hl
  | cons kv t ih =>
    by_cases hk : kv.1 = k
    · rw [hist_lookup, if_pos hk] at hl
      obtain rfl : kv.2 = m := by injection hl
      have hkv : kv = (k, kv.2) := by
        obtain ⟨a, b⟩ := kv
        simpa using hk
      rw [List.mem_cons]
      left
      rw [hkv]
    · rw [hist_lookup, if_neg hk] at hl
      exact List.mem_cons_of_mem kv (ih hl)

theorem hist_lookup_eq_none (h : List (Nat × Message)) (k : Nat) :
    hist_lookup k h = none ↔ k ∉ h.map Prod.fst := by
  induction h with
  | nil => simp [hist_lookup]
  | cons kv t ih =>
    by_cases hk : kv.1 = k
    · simp [hist_lookup, hk]
    · simp [hist_lookup, hk, ih, Ne.symm hk]

theorem hist_set_fresh (h : List (Nat × Message)) (k : Nat) (v : Message)
    (hk : k ∉ h.map Prod.fst) : hist_set h k v = h ++ [(k, v)] := by
  induction h with
  | nil => simp [hist_set]
  | cons kv t ih =>
    simp only [List.map_cons, List.mem_cons] at hk
    push_neg at hk
    rw [hist_set, if_neg (fun hh => hk.1 hh.symm), ih hk.2]
    simp

theorem hist_set_keys_of_mem (h : List (Nat × Message)) (k : Nat) (v : Message)
    (hk : k ∈ h.map Prod.fst) : (hist_set h k v).map Prod.fst = h.map Prod.fst := by
  induction h with
  | nil => simp at hk
  | cons kv t ih =>
    by_cases hh : kv.1 = k
    · rw [hist_set, if_pos hh]
      simp [hh]
    · have hk2 : k ∈ t.map Prod.fst := by
        simp only [List.map_cons, List.mem_cons] at hk
        rcases hk with hk | hk
        · exact absurd hk.symm hh
        · exact hk
      rw [hist_set, if_neg hh]
      simp [ih hk2]

theorem hist_del_sublist (h : List (Nat × Message)) (i : Nat) :
    List.Sublist (hist_del h i) h := by
  induction h with
  | nil => exact List.Sublist.refl []
  | cons kv t ih =>
    rw [hist_del]
    split
    · exact List.sublist_cons_self kv t
    · exact List.Sublist.cons₂ kv ih

theorem hist_del_all_sublist (ids : List Nat) :
    ∀ h : List (Nat × Message), List.Sublist (hist_del_all h ids) h := by
  induction ids with
  | nil => intro h; exact List.Sublist.refl h
  | cons i is ih =>
    intro h
    exact List.Sublist.trans (ih (hist_del h i)) (hist_del_sublist h i)

theorem hist_lookup_del_ne (h : List (Nat × Message)) (i j : Nat) (hne : j ≠ i) :
    hist_lookup j (hist_del h i) = hist_lookup j h := by
  induction h with
  | nil => rfl
  | cons kv t ih =>
    by_cases hk : kv.1 = i
    · rw [hist_del, if_pos hk, hist_lookup, if_neg (by rw [hk]; exact Ne.symm hne)]
    · by_cases hj : kv.1 = j
      · rw [hist_del, if_neg hk, hist_lookup, if_pos hj, hist_lookup, if_pos hj]
      · rw [hist_del, if_neg hk, hist_lookup, if_neg hj, hist_lookup, if_neg hj, ih]

theorem hist_lookup_del_self (h : List (Nat × Message)) (i : Nat)
    (hnd : (h.map Prod.fst).Nodup) : hist_lookup i (hist_del h i) = none := by
  induction h with
  | nil => rfl
  | cons kv t ih =>
    simp only [List.map_cons, List.nodup_cons] at hnd
    by_cases hk : kv.1 = i
    · rw [hist_del, if_pos hk, hist_lookup_eq_none]
      rw [← hk]
      exact hnd.1
    · rw [hist_del, if_neg hk, hist_lookup, if_neg hk]
      exact ih hnd.2

theorem hist_lookup_del_all_not_mem (ids : List Nat) :
    ∀ (h : List (Nat × Message)) (j : Nat), j ∉ ids →
      hist_lookup j (hist_del_all h ids) = hist_lookup j h := by
  induction ids with
  | nil => intro h j _; rfl
  | cons i is ih =>
    intro h j hj
    simp only [List.mem_cons] at hj
    push_neg at hj
    rw [hist_del_all, List.foldl_cons]
    rw [show List.foldl hist_del (hist_del h i) is = hist_del_all (hist_del h i) is from rfl]
    rw [ih (hist_del h i) j hj.2, hist_lookup_del_ne h i j hj.1]

theorem hist_lookup_del_all_mem (ids : List Nat) :
    ∀ (h : List (Nat × Message)) (j : Nat), j ∈ ids → (h.map Prod.fst).Nodup →
      hist_lookup j (hist_del_all h ids) = none := by
  induction ids with
  | nil => intro h j hj _; simp at hj
  | cons i is ih =>
    intro h j hj hnd
    rw [hist_del_all, List.foldl_cons]
    rw [show List.foldl hist_del (hist_del h i) is = hist_del_all (hist_del h i) is from rfl]
    rcases List.mem_cons.mp hj with hj | hj
    · subst hj
      by_cases hmem : j ∈ is
      · exact ih (hist_del h j) j hmem (((hist_del_sublist h j).map Prod.fst).nodup hnd)
      · rw [hist_lookup_del_all_not_mem is (hist_del h j) j hmem]
        exact hist_lookup_del_self h j hnd
    · exact ih (hist_del h i) j hj (((hist_del_sublist h i).map Prod.fst).nodup hnd)

theorem toDeleteIds_mem_ledger (L : List (Nat × Nat)) (j : Nat)
    (hj : j ∈ toDeleteIds L) : ∃ p ∈ L, j = p.1 ∨ j = p.2 := by
  cases L with
  | nil => simp [toDeleteIds] at hj
  | cons p rest =>
    rw [toDeleteIds] at hj
    rcases List.mem_cons.mp hj with hj | hj
    · exact ⟨p, List.mem_cons_self p rest, Or.inr hj⟩
    · obtain ⟨q, hq, hjq⟩ := List.mem_flatMap.mp hj
      refine ⟨q, List.mem_cons_of_mem p hq, ?_⟩
      rcases List.mem_cons.mp hjq with h | h
      · exact Or.inl h
      · rw [List.mem_singleton] at h
        exact Or.inr h

theorem snd_mem_toDeleteIds (L : List (Nat × Nat)) (p : Nat × Nat) (hp : p ∈ L) :
    p.2 ∈ toDeleteIds L := by
  cases L with
  | nil => simp at hp
  | cons q rest =>
    rw [toDeleteIds]
    rcases List.mem_cons.mp hp with hp | hp
    · subst hp
      exact List.mem_cons_self _ _
    · refine List.mem_cons_of_mem _ (List.mem_flatMap.mpr ⟨p, hp, ?_⟩)
      simp

theorem fst_mem_toDeleteIds_tail (q : Nat × Nat) (rest : List (Nat × Nat))
    (p : Nat × Nat) (hp : p ∈ rest) : p.1 ∈ toDeleteIds (q :: rest) := by
  rw [toDeleteIds]
  refine List.mem_cons_of_mem _ (List.mem_flatMap.mpr ⟨p, hp, ?_⟩)
  simp

theorem storeNew_inv (cm : ContextManager) (m : Message)
    (h1 : ∀ kv ∈ cm.context_history, kv.1 < cm.next_id)
    (h2 : (cm.context_history.map Prod.fst).Nodup)
    (h3 : ∀ p ∈ cm.pending_failed_tool_calls,
      p.1 < cm.next_id ∧
      (hist_lookup p.1 cm.context_history).map Message.type = some MsgType.ai ∧
      ((p.2 < cm.next_id ∧
        (hist_lookup p.2 cm.context_history).map Message.type = some MsgType.tool) ∨
       (p.2 = cm.next_id ∧ m.type = MsgType.tool)))
    (h4 : (cm.pending_failed_tool_calls.map Prod.fst).Nodup) :
    cmInv (storeNew cm m) := by
  have hfresh : cm.next_id ∉ cm.context_history.map Prod.fst := by
    intro hmem
    obtain ⟨kv, hkv, hkeq⟩ := List.mem_map.mp hmem
    have := h1 kv hkv
    omega
  have hset := hist_set_fresh cm.context_history cm.next_id m hfresh
  unfold storeNew cmInv
  refine ⟨?_, ?_, ?_, h4, ?_⟩
  · intro kv hkv
    rw [hset] at hkv
    rcases List.mem_append.mp hkv with hkv | hkv
    · have := h1 kv hkv
      simp only
      omega
    · rw [List.mem_singleton] at hkv
      subst hkv
      simp
  · rw [hset, List.map_append]
    simp only [List.map_cons, List.map_nil]
    rw [List.nodup_append]
    exact ⟨h2, List.nodup_singleton _, by simpa using fun hmem => hfresh hmem⟩
  · intro p hp
    obtain ⟨hb1, hty1, hrest⟩ := h3 p hp
    have hne1 : p.1 ≠ cm.next_id := Nat.ne_of_lt hb1
    refine ⟨by simp only; omega, ?_, ?_, ?_⟩
    · rcases hrest with hr | hr
      · simp only
        omega
      · simp only
        omega
    · simp only
      rw [hist_lookup_set_ne cm.context_history cm.next_id m p.1 hne1]
      exact hty1
    · rcases hrest with hr | hr
      · simp only
        rw [hist_lookup_set_ne cm.context_history cm.next_id m p.2 (Nat.ne_of_lt hr.1)]
        exact hr.2
      · simp only
        rw [hr.1, hist_lookup_set_eq]
        simp [hr.2]
  · intro l hl
    simp only [Option.toList_some, List.mem_singleton] at hl
    subst hl
    refine ⟨by simp only; omega, ?_⟩
    intro hty p hp
    simp only at hty
    rw [hist_lookup_set_eq] at hty
    have hmty : m.type = MsgType.ai := by
      simpa using hty
    obtain ⟨hb1, _, hrest⟩ := h3 p hp
    refine ⟨Nat.ne_of_lt hb1, ?_⟩
    rcases hrest with hr | hr
    · exact Nat.ne_of_lt hr.1
    · rw [hmty] at hr
      exact absurd hr.2 (by simp)

theorem cmInv_link_append (cm : ContextManager) (lid : Nat) (lm : Message) (b : Bool)
    (nm : Message) (h : cmInv cm)
    (hlast : cm.last_message_id = some lid)
    (hlm : hist_lookup lid cm.context_history = some lm)
    (hai : lm.type = MsgType.ai)
    (hnm : nm.type = MsgType.tool) :
    cmInv (storeNew
      { cm with
        context_history := hist_set cm.context_history lid (markSuccess lm b)
        pending_failed_tool_calls :=
          cm.pending_failed_tool_calls ++ [(lid, cm.next_id)] } nm) := by
  obtain ⟨h1, h2, h3, h4, h5⟩ := h
  have hmemp : (lid, lm) ∈ cm.context_history := hist_lookup_some_mem _ _ _ hlm
  have hmem : lid ∈ cm.context_history.map Prod.fst :=
    List.mem_map.mpr ⟨(lid, lm), hmemp, rfl⟩
  have hlid_lt : lid < cm.next_id := h1 (lid, lm) hmemp
  have hkeys : (hist_set cm.context_history lid (markSuccess lm b)).map Prod.fst =
      cm.context_history.map Prod.fst := hist_set_keys_of_mem _ _ _ hmem
  have hnotled : ∀ p ∈ cm.pending_failed_tool_calls, p.1 ≠ lid ∧ p.2 ≠ lid :=
    (h5 lid (by simp [hlast])).2 (by rw [hlm]; simp [hai])
  apply storeNew_inv
  · intro kv hkv
    simp only at hkv ⊢
    have hk : kv.1 ∈ (hist_set cm.context_history lid (markSuccess lm b)).map Prod.fst :=
      List.mem_map_of_mem Prod.fst hkv
    rw [hkeys] at hk
    obtain ⟨kv2, hkv2, hkeq⟩ := List.mem_map.mp hk
    rw [← hkeq]
    exact h1 kv2 hkv2
  · simp only
    rw [hkeys]
    exact h2
  · intro p hp
    simp only at hp ⊢
    rcases List.mem_append.mp hp with hp | hp
    · obtain ⟨hb1, hb2, hty1, hty2⟩ := h3 p hp
      have hne := hnotled p hp
      refine ⟨hb1, ?_, Or.inl ⟨hb2, ?_⟩⟩
      · rw [hist_lookup_set_ne _ _ _ _ hne.1]
        exact hty1
      · rw [hist_lookup_set_ne _ _ _ _ hne.2]
        exact hty2
    · rw [List.mem_singleton] at hp
      subst hp
      refine ⟨hlid_lt, ?_, Or.inr ⟨rfl, hnm⟩⟩
      rw [hist_lookup_set_eq]
      simp [markSuccess, hai]
  · simp only
    rw [List.map_append]
    simp only [List.map_cons, List.map_nil]
    rw [List.nodup_append]
    refine ⟨h4, List.nodup_singleton _, ?_⟩
    intro a ha hb
    rw [List.mem_singleton] at hb
    obtain ⟨p, hp, hpa⟩ := List.mem_map.mp ha
    exact (hnotled p hp).1 (hpa.symm ▸ hb ▸ rfl)

theorem cmInv_add (judge : Judge) (cm : ContextManager) (msg : InMsg) (cm2 : ContextManager)
    (h : cmInv cm) (he : add_message judge cm msg = Except.ok cm2) : cmInv cm2 := by
  obtain ⟨h1, h2, h3, h4, h5⟩ := h
  have h3std : ∀ m : Message, ∀ p ∈ cm.pending_failed_tool_calls,
      p.1 < cm.next_id ∧
      (hist_lookup p.1 cm.context_history).map Message.type = some MsgType.ai ∧
      ((p.2 < cm.next_id ∧
        (hist_lookup p.2 cm.context_history).map Message.type = some MsgType.tool) ∨
       (p.2 = cm.next_id ∧ m.type = MsgType.tool)) :=
    fun _ p hp => ⟨(h3 p hp).1, (h3 p hp).2.2.1, Or.inl ⟨(h3 p hp).2.1, (h3 p hp).2.2.2⟩⟩
  unfold add_message at he
  dsimp only at he
  split at he
  · injection he with hE
    subst hE
    exact storeNew_inv cm _ h1 h2 (h3std _) h4
  · injection he with hE
    subst hE
    exact storeNew_inv cm _ h1 h2 (h3std _) h4
  · injection he with hE
    subst hE
    exact storeNew_inv cm _ h1 h2 (h3std _) h4
  · rename_i htype
    split at he
    · injection he with hE
      subst hE
      exact storeNew_inv cm _ h1 h2 (h3std _) h4
    · rename_i lid hlast
      split at he
      · exact Except.noConfusion he
      · rename_i lm hlm
        split at he
        · injection he with hE
          subst hE
          exact storeNew_inv cm _ h1 h2 (h3std _) h4
        · rename_i hnai
          have hai : lm.type = MsgType.ai := not_ne_iff.mp hnai
          split at he
          · exact Except.noConfusion he
          · rename_i tc htc
            split at he
            · injection he with hE
              subst hE
              exact cmInv_link_append cm lid lm _ _ ⟨h1, h2, h3, h4, h5⟩ hlast hlm hai htype
            · split at he
              · split at he
                · -- prune branch
                  injection he with hE
                  subst hE
                  have hmemp : (lid, lm) ∈ cm.context_history :=
                    hist_lookup_some_mem _ _ _ hlm
                  have hmem : lid ∈ cm.context_history.map Prod.fst :=
                    List.mem_map.mpr ⟨(lid, lm), hmemp, rfl⟩
                  have hkeys : (hist_set cm.context_history lid
                      (markSuccess lm (judge.toolSuccess (tool_string tc) msg.content))).map
                        Prod.fst = cm.context_history.map Prod.fst :=
                    hist_set_keys_of_mem _ _ _ hmem
                  apply storeNew_inv
                  · intro kv hkv
                    simp only at hkv ⊢
                    have hsub := (hist_del_all_sublist
                      (toDeleteIds cm.pending_failed_tool_calls) _).subset hkv
                    have hk := List.mem_map_of_mem Prod.fst hsub
                    rw [hkeys] at hk
                    obtain ⟨kv2, hkv2, hkeq⟩ := List.mem_map.mp hk
                    rw [← hkeq]
                    exact h1 kv2 hkv2
                  · simp only
                    exact ((hist_del_all_sublist _ _).map Prod.fst).nodup
                      (by rw [hkeys]; exact h2)
                  · intro p hp
                    simp only at hp
                    exact absurd hp (List.not_mem_nil p)
                  · simp only
                    exact List.nodup_nil
                · injection he with hE
                  subst hE
                  exact cmInv_link_append cm lid lm _ _ ⟨h1, h2, h3, h4, h5⟩ hlast hlm hai htype
              · rename_i hnil
                have heq : cm.pending_failed_tool_calls = [] := not_ne_iff.mp hnil
                injection he with hE
                subst hE
                have hmemp : (lid, lm) ∈ cm.context_history :=
                  hist_lookup_some_mem _ _ _ hlm
                have hmem : lid ∈ cm.context_history.map Prod.fst :=
                  List.mem_map.mpr ⟨(lid, lm), hmemp, rfl⟩
                have hkeys : (hist_set cm.context_history lid
                    (markSuccess lm (judge.toolSuccess (tool_string tc) msg.content))).map
                      Prod.fst = cm.context_history.map Prod.fst :=
                  hist_set_keys_of_mem _ _ _ hmem
                apply storeNew_inv
                · intro kv hkv
                  simp only at hkv ⊢
                  have hk := List.mem_map_of_mem Prod.fst hkv
                  rw [hkeys] at hk
                  obtain ⟨kv2, hkv2, hkeq⟩ := List.mem_map.mp hk
                  rw [← hkeq]
                  exact h1 kv2 hkv2
                · simp only
                  rw [hkeys]
                  exact h2
                · intro p hp
                  simp only at hp
                  rw [heq] at hp
                  exact absurd hp (List.not_mem_nil p)
                · simp only
                  rw [heq]
                  exact List.nodup_nil

theorem add_message_prune_eq (judge : Judge) (cm : ContextManager) (msg : InMsg)
    (lid : Nat) (lm : Message) (tc : MToolCall)
    (htype : msg.type = MsgType.tool)
    (hlast : cm.last_message_id = some lid)
    (hlm : hist_lookup lid cm.context_history = some lm)
    (hai : lm.type = MsgType.ai)
    (htc : lm.tool_call = some tc)
    (hsucc : judge.toolSuccess (tool_string tc) msg.content = true)
    (hne : cm.pending_failed_tool_calls ≠ [])
    (hgoal : judge.goalAchieved (buildConversation
      (hist_set cm.context_history lid (markSuccess lm true))
      cm.pending_failed_tool_calls (markSuccess lm true) msg.content) = true) :
    add_message judge cm msg =
      Except.ok (storeNew
        { cm with
          context_history := hist_del_all
            (hist_set cm.context_history lid (markSuccess lm true))
            (toDeleteIds cm.pending_failed_tool_calls)
          pending_failed_tool_calls := [] }
        { id := cm.next_id, type := msg.type, original_content := msg.content
          compressed_content := msg.content, is_response_to := some lid }) := by
  unfold add_message
  rw [htype]
  dsimp only
  rw [hlast]
  dsimp only
  rw [hlm]
  dsimp only
  rw [if_neg (not_ne_iff.mpr hai)]
  rw [htc]
  dsimp only
  rw [hsucc]
  rw [if_neg (by simp)]
  rw [if_pos hne]
  rw [if_pos hgoal]

theorem add_message_nogoal_eq (judge : Judge) (cm : ContextManager) (msg : InMsg)
    (lid : Nat) (lm : Message) (tc : MToolCall)
    (htype : msg.type = MsgType.tool)
    (hlast : cm.last_message_id = some lid)
    (hlm : hist_lookup lid cm.context_history = some lm)
    (hai : lm.type = MsgType.ai)
    (htc : lm.tool_call = some tc)
    (hsucc : judge.toolSuccess (tool_string tc) msg.content = true)
    (hne : cm.pending_failed_tool_calls ≠ [])
    (hgoal : judge.goalAchieved (buildConversation
      (hist_set cm.context_history lid (markSuccess lm true))
      cm.pending_failed_tool_calls (markSuccess lm true) msg.content) = false) :
    add_message judge cm msg =
      Except.ok (storeNew
        { cm with
          context_history := hist_set cm.context_history lid (markSuccess lm true)
          pending_failed_tool_calls :=
            cm.pending_failed_tool_calls ++ [(lid, cm.next_id)] }
        { id := cm.next_id, type := msg.type, original_content := msg.content
          compressed_content := msg.content, is_response_to := some lid }) := by
  unfold add_message
  rw [htype]
  dsimp only
  rw [hlast]
  dsimp only
  rw [hlm]
  dsimp only
  rw [if_neg (not_ne_iff.mpr hai)]
  rw [htc]
  dsimp only
  rw [hsucc]
  rw [if_neg (by simp)]
  rw [if_pos hne]
  rw [if_neg (by simp [hgoal])]

/-- Claim C4: when add_message processes an action result classified
successful while the Pending Failure Ledger is non-empty and the goal
achieved judgment answers yes, then afterwards the ledger is empty, the very
first ledger entry assistant turn is still present unchanged, and every
other turn id referenced by a ledger entry (all result ids, and all later
assistant ids) has been deleted from the history. -/
theorem c4_goal_achieved_pruning (judge : Judge) (cm : ContextManager) (msg : InMsg)
    (lid : Nat) (lm : Message) (tc : MToolCall) (a0 t0 : Nat) (rest : List (Nat × Nat))
    (st2 : ContextManager)
    (hInv : cmInv cm)
    (htype : msg.type = MsgType.tool)
    (hlast : cm.last_message_id = some lid)
    (hlm : hist_lookup lid cm.context_history = some lm)
    (hai : lm.type = MsgType.ai)
    (htc : lm.tool_call = some tc)
    (hsucc : judge.toolSuccess (tool_string tc) msg.content = true)
    (hledger : cm.pending_failed_tool_calls = (a0, t0) :: rest)
    (hgoal : judge.goalAchieved (buildConversation
      (hist_set cm.context_history lid (markSuccess lm true))
      cm.pending_failed_tool_calls (markSuccess lm true) msg.content) = true)
    (he : add_message judge cm msg = Except.ok st2) :
    st2.pending_failed_tool_calls = [] ∧
    (∃ m0, hist_lookup a0 cm.context_history = some m0 ∧
      hist_lookup a0 st2.context_history = some m0) ∧
    (∀ p ∈ rest, hist_lookup p.1 st2.context_history = none) ∧
    (∀ p ∈ cm.pending_failed_tool_calls, hist_lookup p.2 st2.context_history = none) := by
  obtain ⟨h1, h2, h3, h4, h5⟩ := hInv
  rw [add_message_prune_eq judge cm msg lid lm tc htype hlast hlm hai htc hsucc
    (by rw [hledger]; simp) hgoal] at he
  injection he with hE
  subst hE
  have hmemp : (lid, lm) ∈ cm.context_history := hist_lookup_some_mem _ _ _ hlm
  have hmem : lid ∈ cm.context_history.map Prod.fst :=
    List.mem_map.mpr ⟨(lid, lm), hmemp, rfl⟩
  have hkeys : (hist_set cm.context_history lid (markSuccess lm true)).map Prod.fst =
      cm.context_history.map Prod.fst := hist_set_keys_of_mem _ _ _ hmem
  have hnd1 : ((hist_set cm.context_history lid (markSuccess lm true)).map Prod.fst).Nodup := by
    rw [hkeys]; exact h2
  have hnotled : ∀ p ∈ cm.pending_failed_tool_calls, p.1 ≠ lid ∧ p.2 ≠ lid :=
    (h5 lid (by simp [hlast])).2 (by rw [hlm]; simp [hai])
  have hlook : ∀ j : Nat, j < cm.next_id → j ≠ lid →
      j ∉ toDeleteIds cm.pending_failed_tool_calls →
      hist_lookup j (storeNew
        { cm with
          context_history := hist_del_all
            (hist_set cm.context_history lid (markSuccess lm true))
            (toDeleteIds cm.pending_failed_tool_calls)
          pending_failed_tool_calls := [] }
        { id := cm.next_id, type := msg.type, original_content := msg.content
          compressed_content := msg.content,
          is_response_to := some lid }).context_history =
        hist_lookup j cm.context_history := by
    intro j hjlt hjlid hjtd
    unfold storeNew
    simp only
    rw [hist_lookup_set_ne _ _ _ _ (Nat.ne_of_lt hjlt)]
    rw [hist_lookup_del_all_not_mem _ _ _ hjtd]
    rw [hist_lookup_set_ne _ _ _ _ hjlid]
  have hdel : ∀ j : Nat, j < cm.next_id →
      j ∈ toDeleteIds cm.pending_failed_tool_calls →
      hist_lookup j (storeNew
        { cm with
          context_history := hist_del_all
            (hist_set cm.context_history lid (markSuccess lm true))
            (toDeleteIds cm.pending_failed_tool_calls)
          pending_failed_tool_calls := [] }
        { id := cm.next_id, type := msg.type, original_content := msg.content
          compressed_content := msg.content,
          is_response_to := some lid }).context_history = none := by
    intro j hjlt hjtd
    unfold storeNew
    simp only
    rw [hist_lookup_set_ne _ _ _ _ (Nat.ne_of_lt hjlt)]
    exact hist_lookup_del_all_mem _ _ _ hjtd hnd1
  refine ⟨rfl, ?_, ?_, ?_⟩
  · -- the first assistant id survives
    have h3a := h3 (a0, t0) (by rw [hledger]; exact List.mem_cons_self _ _)
    obtain ⟨ha0lt, _, hty0, _⟩ := h3a
    have hm0 : ∃ m0, hist_lookup a0 cm.context_history = some m0 ∧
        m0.type = MsgType.ai := by
      cases hl : hist_lookup a0 cm.context_history with
      | none => rw [hl] at hty0; simp at hty0
      | some m0 =>
        rw [hl] at hty0
        simp at hty0
        exact ⟨m0, rfl, hty0⟩
    obtain ⟨m0, hm0l, hm0ty⟩ := hm0
    have ha0lid : a0 ≠ lid :=
      (hnotled (a0, t0) (by rw [hledger]; exact List.mem_cons_self _ _)).1
    have ha0td : a0 ∉ toDeleteIds cm.pending_failed_tool_calls := by
      rw [hledger]
      rw [toDeleteIds]
      intro hmem0
      rcases List.mem_cons.mp hmem0 with hc | hc
      · -- a0 would be the first result id: type clash
        have h3t := (h3 (a0, t0) (by rw [hledger]; exact List.mem_cons_self _ _)).2.2.2
        rw [← hc] at h3t
        rw [hm0l] at h3t
        simp at h3t
        rw [hm0ty] at h3t
        exact MsgType.noConfusion h3t
      · obtain ⟨q, hq, hjq⟩ := List.mem_flatMap.mp hc
        have hqmem : q ∈ cm.pending_failed_tool_calls := by
          rw [hledger]; exact List.mem_cons_of_mem _ hq
        rcases List.mem_cons.mp hjq with hcc | hcc
        · -- a0 equal to a later assistant id: ledger assistant ids are distinct
          rw [hledger] at h4
          simp only [List.map_cons, List.nodup_cons] at h4
          exact h4.1 (hcc ▸ List.mem_map_of_mem Prod.fst hq)
        · rw [List.mem_singleton] at hcc
          have h3t := (h3 q hqmem).2.2.2
          rw [← hcc] at h3t
          rw [hm0l] at h3t
          simp at h3t
          rw [hm0ty] at h3t
          exact MsgType.noConfusion h3t
    exact ⟨m0, hm0l, by rw [hlook a0 ha0lt ha0lid ha0td]; exact hm0l⟩
  · intro p hp
    have hpmem : p ∈ cm.pending_failed_tool_calls := by
      rw [hledger]; exact List.mem_cons_of_mem _ hp
    have hptd : p.1 ∈ toDeleteIds cm.pending_failed_tool_calls := by
      rw [hledger]
      exact fst_mem_toDeleteIds_tail (a0, t0) rest p hp
    exact hdel p.1 (h3 p hpmem).1 hptd
  · intro p hp
    have hptd : p.2 ∈ toDeleteIds cm.pending_failed_tool_calls :=
      snd_mem_toDeleteIds _ p hp
    exact hdel p.2 (h3 p hp).2.1 hptd

/-- Claim C6: when add_message processes an action result classified
successful while the ledger is non-empty and the goal achieved judgment
answers no, no turn is deleted from the history (every stored turn is still
present, unchanged except for the success mark on the preceding assistant
turn), every existing ledger entry is retained, and the pair of preceding
assistant id and this result id is appended to the ledger. -/
theorem c6_no_premature_pruning (judge : Judge) (cm : ContextManager) (msg : InMsg)
    (lid : Nat) (lm : Message) (tc : MToolCall) (st2 : ContextManager)
    (hInv : cmInv cm)
    (htype : msg.type = MsgType.tool)
    (hlast : cm.last_message_id = some lid)
    (hlm : hist_lookup lid cm.context_history = some lm)
    (hai : lm.type = MsgType.ai)
    (htc : lm.tool_call = some tc)
    (hsucc : judge.toolSuccess (tool_string tc) msg.content = true)
    (hne : cm.pending_failed_tool_calls ≠ [])
    (hgoal : judge.goalAchieved (buildConversation
      (hist_set cm.context_history lid (markSuccess lm true))
      cm.pending_failed_tool_calls (markSuccess lm true) msg.content) = false)
    (he : add_message judge cm msg = Except.ok st2) :
    st2.pending_failed_tool_calls =
      cm.pending_failed_tool_calls ++ [(lid, cm.next_id)] ∧
    (∀ (k : Nat) (mk : Message), hist_lookup k cm.context_history = some mk →
      ∃ mk2, hist_lookup k st2.context_history = some mk2 ∧ (k ≠ lid → mk2 = mk)) := by
  obtain ⟨h1, h2, h3, h4, h5⟩ := hInv
  rw [add_message_nogoal_eq judge cm msg lid lm tc htype hlast hlm hai htc hsucc
    hne hgoal] at he
  injection he with hE
  subst hE
  refine ⟨rfl, ?_⟩
  intro k mk hkmk
  have hkmem : (k, mk) ∈ cm.context_history := hist_lookup_some_mem _ _ _ hkmk
  have hklt : k < cm.next_id := h1 _ hkmem
  have hkne : k ≠ cm.next_id := Nat.ne_of_lt hklt
  by_cases hklid : k = lid
  · refine ⟨markSuccess lm true, ?_, fun hc => absurd hklid hc⟩
    unfold storeNew
    rw [hist_lookup_set_ne _ _ _ _ hkne, hklid, hist_lookup_set_eq]
  · refine ⟨mk, ?_, fun _ => rfl⟩
    unfold storeNew
    rw [hist_lookup_set_ne _ _ _ _ hkne, hist_lookup_set_ne _ _ _ _ hklid]
    exact hkmk

/-- Claim C7 (amended): an action result with no linkable assistant turn is
stored verbatim with no linkage and without error when no turn precedes it or
the preceding turn is not an assistant turn; but when the immediately
preceding turn is an assistant turn carrying no action call, add_message
raises a KeyError (the unguarded metadata access at line 125 of the source)
instead of storing the message. -/
theorem c7_unlinked_action_result_amended (judge : Judge) (cm : ContextManager)
    (msg : InMsg) (htype : msg.type = MsgType.tool) :
    (cm.last_message_id = none →
      add_message judge cm msg = Except.ok (storeNew cm (plainMsg cm msg))) ∧
    (∀ (lid : Nat) (lm : Message), cm.last_message_id = some lid →
      hist_lookup lid cm.context_history = some lm → lm.type ≠ MsgType.ai →
      add_message judge cm msg = Except.ok (storeNew cm (plainMsg cm msg))) ∧
    (∀ (lid : Nat) (lm : Message), cm.last_message_id = some lid →
      hist_lookup lid cm.context_history = some lm → lm.type = MsgType.ai →
      lm.tool_call = none →
      add_message judge cm msg = Except.error "KeyError: tool_call") := by
  obtain ⟨mty, mcont, mcalls⟩ := msg
  dsimp only at htype
  subst htype
  refine ⟨?_, ?_, ?_⟩
  · intro hlast
    unfold add_message
    dsimp only
    rw [hlast]
    rfl
  · intro lid lm hlast hlm hnai
    unfold add_message
    dsimp only
    rw [hlast]
    dsimp only
    rw [hlm]
    dsimp only
    rw [if_pos hnai]
    rfl
  · intro lid lm hlast hlm hai htc
    unfold add_message
    dsimp only
    rw [hlast]
    dsimp only
    rw [hlm]
    dsimp only
    rw [if_neg (not_ne_iff.mpr hai), htc]

theorem sysuser_step (judge : Judge) (cm : ContextManager) (msg : InMsg)
    (cm2 : ContextManager) (k : Nat) (m : Message)
    (hInv : cmInv cm)
    (hk : hist_lookup k cm.context_history = some m)
    (hty : m.type = MsgType.system ∨ m.type = MsgType.user)
    (he : add_message judge cm msg = Except.ok cm2) :
    hist_lookup k cm2.context_history = some m := by
  obtain ⟨h1, h2, h3, h4, h5⟩ := hInv
  have hkmem : (k, m) ∈ cm.context_history := hist_lookup_some_mem _ _ _ hk
  have hklt : k < cm.next_id := h1 _ hkmem
  have hkne : k ≠ cm.next_id := Nat.ne_of_lt hklt
  unfold add_message at he
  dsimp only at he
  split at he
  · injection he with hE
    subst hE
    unfold storeNew
    rw [hist_lookup_set_ne _ _ _ _ hkne]
    exact hk
  · injection he with hE
    subst hE
    unfold storeNew
    rw [hist_lookup_set_ne _ _ _ _ hkne]
    exact hk
  · injection he with hE
    subst hE
    unfold storeNew
    rw [hist_lookup_set_ne _ _ _ _ hkne]
    exact hk
  · split at he
    · injection he with hE
      subst hE
      unfold storeNew
      rw [hist_lookup_set_ne _ _ _ _ hkne]
      exact hk
    · rename_i lid hlast
      split at he
      · exact Except.noConfusion he
      · rename_i lm hlm
        split at he
        · injection he with hE
          subst hE
          unfold storeNew
          rw [hist_lookup_set_ne _ _ _ _ hkne]
          exact hk
        · rename_i hnai
          have hai : lm.type = MsgType.ai := not_ne_iff.mp hnai
          have hklid : k ≠ lid := by
            intro hkl
            rw [hkl, hlm] at hk
            have hmlm : lm = m := by injection hk
            rw [← hmlm] at hty
            rcases hty with h | h
            · rw [hai] at h
              exact MsgType.noConfusion h
            · rw [hai] at h
              exact MsgType.noConfusion h
          split at he
          · exact Except.noConfusion he
          · rename_i tc htc
            split at he
            · injection he with hE
              subst hE
              unfold storeNew
              rw [hist_lookup_set_ne _ _ _ _ hkne,
                hist_lookup_set_ne _ _ _ _ hklid]
              exact hk
            · split at he
              · split at he
                · injection he with hE
                  subst hE
                  have hktd : k ∉ toDeleteIds cm.pending_failed_tool_calls := by
                    intro hmemtd
                    obtain ⟨p, hp, hor⟩ := toDeleteIds_mem_ledger _ _ hmemtd
                    rcases hor with hc | hc
                    · have h3a := (h3 p hp).2.2.1
                      rw [← hc, hk] at h3a
                      simp at h3a
                      rcases hty with h | h <;> rw [h3a] at h <;>
                        exact MsgType.noConfusion h
                    · have h3a := (h3 p hp).2.2.2
                      rw [← hc, hk] at h3a
                      simp at h3a
                      rcases hty with h | h <;> rw [h3a] at h <;>
                        exact MsgType.noConfusion h
                  unfold storeNew
                  rw [hist_lookup_set_ne _ _ _ _ hkne]
                  rw [hist_lookup_del_all_not_mem _ _ _ hktd]
                  rw [hist_lookup_set_ne _ _ _ _ hklid]
                  exact hk
                · injection he with hE
                  subst hE
                  unfold storeNew
                  rw [hist_lookup_set_ne _ _ _ _ hkne,
                    hist_lookup_set_ne _ _ _ _ hklid]
                  exact hk
              · injection he with hE
                subst hE
                unfold storeNew
                rw [hist_lookup_set_ne _ _ _ _ hkne,
                  hist_lookup_set_ne _ _ _ _ hklid]
                exact hk

/-- Claim C10: across every sequence of add_message calls with any judgment
outcomes, a message stored with type system or user is never deleted from
the history and never mutated: pruning deletions only ever target assistant
and action result turns referenced by Pending Failure Ledger entries. -/
theorem c10_system_user_preservation (judge : Judge) (msgs : List InMsg) :
    ∀ (cm cm2 : ContextManager) (k : Nat) (m : Message),
      cmInv cm →
      hist_lookup k cm.context_history = some m →
      (m.type = MsgType.system ∨ m.type = MsgType.user) →
      runMsgs judge cm msgs = Except.ok cm2 →
      hist_lookup k cm2.context_history = some m := by
  induction msgs with
  | nil =>
    intro cm cm2 k m _ hk _ hrun
    rw [runMsgs] at hrun
    injection hrun with hE
    subst hE
    exact hk
  | cons x xs ih =>
    intro cm cm2 k m hInv hk hty hrun
    rw [runMsgs] at hrun
    cases hadd : add_message judge cm x with
    | ok cm1 =>
      rw [hadd] at hrun
      exact ih cm1 cm2 k m (cmInv_add judge cm x cm1 hInv hadd)
        (sysuser_step judge cm x cm1 k m hInv hk hty hadd) hty hrun
    | error e =>
      rw [hadd] at hrun
      exact Except.noConfusion hrun

/-- Claim C4 witness: a concrete store with one pending failure, a concrete
successful result and a yes judge; the first assistant turn survives, the
failed result and the retry bookkeeping are deleted, the ledger is cleared. -/
theorem c4_witness :
    cmInv demoCM4 ∧
    add_message demoJudgeYes demoCM4 demoToolMsg = Except.ok demoCM4b ∧
    (demoCM4b.pending_failed_tool_calls = [] ∧
      (∃ m0, hist_lookup 0 demoCM4.context_history = some m0 ∧
        hist_lookup 0 demoCM4b.context_history = some m0) ∧
      (∀ p ∈ ([] : List (Nat × Nat)), hist_lookup p.1 demoCM4b.context_history = none) ∧
      (∀ p ∈ demoCM4.pending_failed_tool_calls,
        hist_lookup p.2 demoCM4b.context_history = none)) :=
  ⟨by decide, rfl,
    c4_goal_achieved_pruning demoJudgeYes demoCM4 demoToolMsg 2 demoAi2 demoTc 0 1 []
      demoCM4b (by decide) rfl rfl rfl rfl rfl rfl rfl rfl rfl⟩

/-- Claim C6 witness: the same store with a no judge; nothing is deleted and
the ledger grows by the new pair. -/
theorem c6_witness :
    cmInv demoCM4 ∧
    add_message demoJudgeNo demoCM4 demoToolMsg = Except.ok demoCM6b ∧
    (demoCM6b.pending_failed_tool_calls =
        demoCM4.pending_failed_tool_calls ++ [(2, demoCM4.next_id)] ∧
      (∀ (k : Nat) (mk : Message), hist_lookup k demoCM4.context_history = some mk →
        ∃ mk2, hist_lookup k demoCM6b.context_history = some mk2 ∧ (k ≠ 2 → mk2 = mk))) :=
  ⟨by decide, rfl,
    c6_no_premature_pruning demoJudgeNo demoCM4 demoToolMsg 2 demoAi2 demoTc demoCM6b
      (by decide) rfl rfl rfl rfl rfl rfl (by decide) rfl rfl⟩

/-- Claim C7 counterexample: appending an assistant message that carries no
action call and then an action result raises a KeyError instead of storing
the result verbatim as the claim asserts. -/
theorem c7_counterexample :
    runMsgs demoJudgeYes (initCM false) demoMsgs7 =
      Except.error "KeyError: tool_call" := rfl

/-- Claim C7 witness: an action result appended to an empty store is stored
verbatim with no linkage and without error. -/
theorem c7_witness :
    demoToolMsg.type = MsgType.tool ∧
    (((initCM true).last_message_id = none →
      add_message demoJudgeYes (initCM true) demoToolMsg =
        Except.ok (storeNew (initCM true) (plainMsg (initCM true) demoToolMsg))) ∧
    (∀ (lid : Nat) (lm : Message), (initCM true).last_message_id = some lid →
      hist_lookup lid (initCM true).context_history = some lm → lm.type ≠ MsgType.ai →
      add_message demoJudgeYes (initCM true) demoToolMsg =
        Except.ok (storeNew (initCM true) (plainMsg (initCM true) demoToolMsg))) ∧
    (∀ (lid : Nat) (lm : Message), (initCM true).last_message_id = some lid →
      hist_lookup lid (initCM true).context_history = some lm → lm.type = MsgType.ai →
      lm.tool_call = none →
      add_message demoJudgeYes (initCM true) demoToolMsg =
        Except.error "KeyError: tool_call")) :=
  ⟨rfl, c7_unlinked_action_result_amended demoJudgeYes (initCM true) demoToolMsg rfl⟩

/-- Claim C5 counterexample: in the claimed append sequence the resulting
history has only three turns with ids 0, 4 and 5, and the first failed
result turn (id 1) has been deleted, contradicting the claimed four
retained turns. -/
theorem c5_counterexample :
    exceptLookup (runMsgs demoJudgeYes (initCM false) demoMsgs5) 1 = none ∧
    exceptHistTypes (runMsgs demoJudgeYes (initCM false) demoMsgs5) =
      [(0, MsgType.ai), (4, MsgType.ai), (5, MsgType.tool)] :=
  ⟨rfl, rfl⟩

/-- Claim C5 (amended): for the append sequence assistant, failed result,
assistant, failed result, assistant, successful result, with the first two
results judged failed, the last successful, and the goal achieved judgment
true on the last pair, the resulting history contains exactly three turns:
the first assistant turn, and the final assistant turn together with its
successful result turn, which resolves it; the first failed result turn is
deleted along with the intermediate assistant and result turns. -/
theorem c5_pruning_retention_amended :
    exceptHistTypes (runMsgs demoJudgeYes (initCM false) demoMsgs5) =
      [(0, MsgType.ai), (4, MsgType.ai), (5, MsgType.tool)] ∧
    (exceptLookup (runMsgs demoJudgeYes (initCM false) demoMsgs5) 5).map
      (fun m => m.is_response_to) = some (some 4) ∧
    (exceptLookup (runMsgs demoJudgeYes (initCM false) demoMsgs5) 0).map
      (fun m => m.original_content) = some "try A" :=
  ⟨rfl, rfl, rfl⟩

/-- Claim C10 witness: a store holding a user message, extended by a further
append; the user message is still present unchanged. -/
theorem c10_witness :
    cmInv demoCM10 ∧
    hist_lookup 0 demoCM10.context_history = some demoUserMessage ∧
    (demoUserMessage.type = MsgType.system ∨ demoUserMessage.type = MsgType.user) ∧
    runMsgs demoJudgeYes demoCM10 demoMsgs10 = Except.ok demoCM10b ∧
    hist_lookup 0 demoCM10b.context_history = some demoUserMessage :=
  ⟨by decide, rfl, Or.inr rfl, rfl,
    c10_system_user_preservation demoJudgeYes demoMsgs10 demoCM10 demoCM10b 0
      demoUserMessage (by decide) rfl (Or.inr rfl) rfl⟩

theorem cmInv_init (b : Bool) : cmInv (initCM b) := by
  refine ⟨?_, ?_, ?_, ?_, ?_⟩ <;> simp [initCM]

theorem cmInv_runMsgs (judge : Judge) (msgs : List InMsg) :
    ∀ (cm cm2 : ContextManager), cmInv cm → runMsgs judge cm msgs = Except.ok cm2 →
      cmInv cm2 := by
  induction msgs with
  | nil =>
    intro cm cm2 h hrun
    rw [runMsgs] at hrun
    injection hrun with hE
    subst hE
    exact h
  | cons x xs ih =>
    intro cm cm2 h hrun
    rw [runMsgs] at hrun
    cases hadd : add_message judge cm x with
    | ok cm1 =>
      rw [hadd] at hrun
      exact ih cm1 cm2 (cmInv_add judge cm x cm1 h hadd) hrun
    | error e =>
      rw [hadd] at hrun
      exact Except.noConfusion hrun
